import Mathlib

/-!
Verification of the 4x4 matrix utility of `IndexBuffer` against its
specification.  The C++ source (`src/IndexBuffer/Utility/CMatrix4x4.h`)
stores a row-major 4x4 matrix as sixteen scalar fields `e00 .. e33` and
provides construction, composition, row access and affine inversion.

The embedding is over an arbitrary field `α`; the specification states its
algebraic properties "exactly under exact arithmetic", so theorems are
proved exactly over a field and concrete witnesses are evaluated over `ℚ`.
-/

namespace IndexBuffer

/-- Embedding of `class CMatrix4x4`: sixteen scalar elements, row-major. -/
@[ext]
structure CMatrix4x4 (α : Type) where
  e00 : α
  e01 : α
  e02 : α
  e03 : α
  e10 : α
  e11 : α
  e12 : α
  e13 : α
  e20 : α
  e21 : α
  e22 : α
  e23 : α
  e30 : α
  e31 : α
  e32 : α
  e33 : α
deriving DecidableEq, Repr

/-- Embedding of `class CVector3` (`CVector3.h`): three scalar components. -/
structure CVector3 (α : Type) where
  x : α
  y : α
  z : α
deriving DecidableEq, Repr

/-- Embedding of `operator*(const CMatrix4x4& m1, const CMatrix4x4& m2)`:
each output element is written exactly as in the source. -/
def mul {α : Type} [Field α] (m1 m2 : CMatrix4x4 α) : CMatrix4x4 α where
  e00 := m1.e00*m2.e00 + m1.e01*m2.e10 + m1.e02*m2.e20 + m1.e03*m2.e30
  e01 := m1.e00*m2.e01 + m1.e01*m2.e11 + m1.e02*m2.e21 + m1.e03*m2.e31
  e02 := m1.e00*m2.e02 + m1.e01*m2.e12 + m1.e02*m2.e22 + m1.e03*m2.e32
  e03 := m1.e00*m2.e03 + m1.e01*m2.e13 + m1.e02*m2.e23 + m1.e03*m2.e33
  e10 := m1.e10*m2.e00 + m1.e11*m2.e10 + m1.e12*m2.e20 + m1.e13*m2.e30
  e11 := m1.e10*m2.e01 + m1.e11*m2.e11 + m1.e12*m2.e21 + m1.e13*m2.e31
  e12 := m1.e10*m2.e02 + m1.e11*m2.e12 + m1.e12*m2.e22 + m1.e13*m2.e32
  e13 := m1.e10*m2.e03 + m1.e11*m2.e13 + m1.e12*m2.e23 + m1.e13*m2.e33
  e20 := m1.e20*m2.e00 + m1.e21*m2.e10 + m1.e22*m2.e20 + m1.e23*m2.e30
  e21 := m1.e20*m2.e01 + m1.e21*m2.e11 + m1.e22*m2.e21 + m1.e23*m2.e31
  e22 := m1.e20*m2.e02 + m1.e21*m2.e12 + m1.e22*m2.e22 + m1.e23*m2.e32
  e23 := m1.e20*m2.e03 + m1.e21*m2.e13 + m1.e22*m2.e23 + m1.e23*m2.e33
  e30 := m1.e30*m2.e00 + m1.e31*m2.e10 + m1.e32*m2.e20 + m1.e33*m2.e30
  e31 := m1.e30*m2.e01 + m1.e31*m2.e11 + m1.e32*m2.e21 + m1.e33*m2.e31
  e32 := m1.e30*m2.e02 + m1.e31*m2.e12 + m1.e32*m2.e22 + m1.e33*m2.e32
  e33 := m1.e30*m2.e03 + m1.e31*m2.e13 + m1.e32*m2.e23 + m1.e33*m2.e33

/-- Embedding of `MatrixIdentity()`. -/
def MatrixIdentity {α : Type} [Field α] : CMatrix4x4 α :=
  ⟨1, 0, 0, 0,
   0, 1, 0, 0,
   0, 0, 1, 0,
   0, 0, 0, 1⟩

/-- Element of a matrix at row `r`, column `c`, following the row-major
layout `e00 .. e33` declared in the source. -/
def entry {α : Type} (m : CMatrix4x4 α) (r c : Fin 4) : α :=
  match r, c with
  | 0, 0 => m.e00
  | 0, 1 => m.e01
  | 0, 2 => m.e02
  | 0, 3 => m.e03
  | 1, 0 => m.e10
  | 1, 1 => m.e11
  | 1, 2 => m.e12
  | 1, 3 => m.e13
  | 2, 0 => m.e20
  | 2, 1 => m.e21
  | 2, 2 => m.e22
  | 2, 3 => m.e23
  | 3, 0 => m.e30
  | 3, 1 => m.e31
  | 3, 2 => m.e32
  | 3, 3 => m.e33

/-- Embedding of `MatrixTranslation(const CVector3& t)`. -/
def MatrixTranslation {α : Type} [Field α] (t : CVector3 α) : CMatrix4x4 α :=
  ⟨  1,   0,   0,  0,
     0,   1,   0,  0,
     0,   0,   1,  0,
   t.x, t.y, t.z,  1⟩

/-- Embedding of `MatrixRotationX(float x)`.  The source computes
`sX = std::sin(x)` and `cX = std::cos(x)`; the trigonometric functions of
the C math library are passed as parameters `sin` and `cos`. -/
def MatrixRotationX {α : Type} [Field α] (sin cos : α → α) (x : α) :
    CMatrix4x4 α :=
  ⟨1,          0,      0, 0,
   0,      cos x,  sin x, 0,
   0, -(sin x),  cos x, 0,
   0,          0,      0, 1⟩

/-- Embedding of `MatrixScaling(const float s)` (uniform scaling). -/
def MatrixScaling {α : Type} [Field α] (s : α) : CMatrix4x4 α :=
  ⟨s, 0, 0, 0,
   0, s, 0, 0,
   0, 0, s, 0,
   0, 0, 0, 1⟩

/-- Embedding of `CMatrix4x4::SetRow(int iRow, const CVector3& v)`: the
source writes `v` into the three elements at `&e00 + iRow*4`, i.e. the
first three elements of row `iRow` of the row-major layout, leaving the
fourth element of the row unchanged.  Row indices outside `[0,3]` are
undefined behaviour in the source, so the index is a `Fin 4`. -/
def SetRow {α : Type} (m : CMatrix4x4 α) (iRow : Fin 4) (v : CVector3 α) :
    CMatrix4x4 α :=
  match iRow with
  | 0 => { m with e00 := v.x, e01 := v.y, e02 := v.z }
  | 1 => { m with e10 := v.x, e11 := v.y, e12 := v.z }
  | 2 => { m with e20 := v.x, e21 := v.y, e22 := v.z }
  | 3 => { m with e30 := v.x, e31 := v.y, e32 := v.z }

/-- Embedding of `CMatrix4x4::GetRow(int iRow)`: reads the three elements
at `&e00 + iRow*4`, i.e. the first three elements of row `iRow`. -/
def GetRow {α : Type} (m : CMatrix4x4 α) (iRow : Fin 4) : CVector3 α :=
  match iRow with
  | 0 => ⟨m.e00, m.e01, m.e02⟩
  | 1 => ⟨m.e10, m.e11, m.e12⟩
  | 2 => ⟨m.e20, m.e21, m.e22⟩
  | 3 => ⟨m.e30, m.e31, m.e32⟩

/-- Embedding of the `else` branch of `CMatrix4x4::operator*=` (the right
operand is a distinct object): the source's sequence of in-place updates,
row by row, rendered as explicit state passing in source order.  Within
each row, `t0,t1,t2` are computed first, then `e_r3` is overwritten, then
`e_r0,e_r1,e_r2` receive `t0,t1,t2`. -/
def mulAssignDistinct {α : Type} [Field α] (s m : CMatrix4x4 α) :
    CMatrix4x4 α :=
  let a0 := s.e00 * m.e00 + s.e01 * m.e10 + s.e02 * m.e20 + s.e03 * m.e30
  let a1 := s.e00 * m.e01 + s.e01 * m.e11 + s.e02 * m.e21 + s.e03 * m.e31
  let a2 := s.e00 * m.e02 + s.e01 * m.e12 + s.e02 * m.e22 + s.e03 * m.e32
  let s1 : CMatrix4x4 α := { s with
    e03 := s.e00 * m.e03 + s.e01 * m.e13 + s.e02 * m.e23 + s.e03 * m.e33 }
  let s2 : CMatrix4x4 α := { s1 with e00 := a0, e01 := a1, e02 := a2 }
  let b0 := s2.e10 * m.e00 + s2.e11 * m.e10 + s2.e12 * m.e20 + s2.e13 * m.e30
  let b1 := s2.e10 * m.e01 + s2.e11 * m.e11 + s2.e12 * m.e21 + s2.e13 * m.e31
  let b2 := s2.e10 * m.e02 + s2.e11 * m.e12 + s2.e12 * m.e22 + s2.e13 * m.e32
  let s3 : CMatrix4x4 α := { s2 with
    e13 := s2.e10 * m.e03 + s2.e11 * m.e13 + s2.e12 * m.e23 + s2.e13 * m.e33 }
  let s4 : CMatrix4x4 α := { s3 with e10 := b0, e11 := b1, e12 := b2 }
  let c0 := s4.e20 * m.e00 + s4.e21 * m.e10 + s4.e22 * m.e20 + s4.e23 * m.e30
  let c1 := s4.e20 * m.e01 + s4.e21 * m.e11 + s4.e22 * m.e21 + s4.e23 * m.e31
  let c2 := s4.e20 * m.e02 + s4.e21 * m.e12 + s4.e22 * m.e22 + s4.e23 * m.e32
  let s5 : CMatrix4x4 α := { s4 with
    e23 := s4.e20 * m.e03 + s4.e21 * m.e13 + s4.e22 * m.e23 + s4.e23 * m.e33 }
  let s6 : CMatrix4x4 α := { s5 with e20 := c0, e21 := c1, e22 := c2 }
  let d0 := s6.e30 * m.e00 + s6.e31 * m.e10 + s6.e32 * m.e20 + s6.e33 * m.e30
  let d1 := s6.e30 * m.e01 + s6.e31 * m.e11 + s6.e32 * m.e21 + s6.e33 * m.e31
  let d2 := s6.e30 * m.e02 + s6.e31 * m.e12 + s6.e32 * m.e22 + s6.e33 * m.e32
  let s7 : CMatrix4x4 α := { s6 with
    e33 := s6.e30 * m.e03 + s6.e31 * m.e13 + s6.e32 * m.e23 + s6.e33 * m.e33 }
  let s8 : CMatrix4x4 α := { s7 with e30 := d0, e31 := d1, e32 := d2 }
  s8

/-- Embedding of `CMatrix4x4::operator*=`: the source checks pointer
identity `this == &m`.  In the value model the pointer comparison becomes
the flag `aliased`; when the operands alias, the source computes the
binary product `m * m`, otherwise it runs the in-place update sequence. -/
def mulAssign {α : Type} [Field α] (aliased : Bool) (s m : CMatrix4x4 α) :
    CMatrix4x4 α :=
  if aliased then mul m m else mulAssignDistinct s m

/-- Embedding of `InverseAffine(const CMatrix4x4& m)`: cofactors of the
upper-left 3x3 block, determinant, inverse 3x3 by adjugate over the
determinant, translation row transformed by the inverted block, last
column forced to `(0,0,0,1)` — each expression exactly as in the source. -/
def InverseAffine {α : Type} [Field α] (m : CMatrix4x4 α) : CMatrix4x4 α :=
  let det0 := m.e11 * m.e22 - m.e12 * m.e21
  let det1 := m.e12 * m.e20 - m.e10 * m.e22
  let det2 := m.e10 * m.e21 - m.e11 * m.e20
  let det := m.e00 * det0 + m.e01 * det1 + m.e02 * det2
  let invDet := 1 / det
  let i00 := invDet * det0
  let i10 := invDet * det1
  let i20 := invDet * det2
  let i01 := invDet * (m.e21 * m.e02 - m.e22 * m.e01)
  let i11 := invDet * (m.e22 * m.e00 - m.e20 * m.e02)
  let i21 := invDet * (m.e20 * m.e01 - m.e21 * m.e00)
  let i02 := invDet * (m.e01 * m.e12 - m.e02 * m.e11)
  let i12 := invDet * (m.e02 * m.e10 - m.e00 * m.e12)
  let i22 := invDet * (m.e00 * m.e11 - m.e01 * m.e10)
  ⟨i00, i01, i02, 0,
   i10, i11, i12, 0,
   i20, i21, i22, 0,
   -m.e30 * i00 - m.e31 * i10 - m.e32 * i20,
   -m.e30 * i01 - m.e31 * i11 - m.e32 * i21,
   -m.e30 * i02 - m.e31 * i12 - m.e32 * i22,
   1⟩

/-- Determinant of the upper-left 3x3 block, expanded exactly as computed
inside `InverseAffine` (`det = e00*det0 + e01*det1 + e02*det2`). -/
def det3 {α : Type} [Field α] (m : CMatrix4x4 α) : α :=
  m.e00 * (m.e11 * m.e22 - m.e12 * m.e21) +
  m.e01 * (m.e12 * m.e20 - m.e10 * m.e22) +
  m.e02 * (m.e10 * m.e21 - m.e11 * m.e20)

/-- C2: `operator*` computes standard 4x4 matrix multiplication: the result
at row `r`, column `c` is the sum over `k` of `m1[r][k] * m2[k][c]`. -/
theorem mul_is_matrix_multiplication {α : Type} [Field α]
    (m1 m2 : CMatrix4x4 α) (r c : Fin 4) :
    entry (mul m1 m2) r c = ∑ k : Fin 4, entry m1 r k * entry m2 k c := by
  fin_cases r <;> fin_cases c <;>
    simp [entry, mul, Fin.sum_univ_four]

/-- C8: multiplying by `MatrixIdentity()` on either side returns the other
operand unchanged, element-wise exactly. -/
theorem mul_identity_left_right {α : Type} [Field α] (m : CMatrix4x4 α) :
    mul MatrixIdentity m = m ∧ mul m MatrixIdentity = m := by
  cases m
  constructor <;> (ext <;> simp [mul, MatrixIdentity])

set_option maxHeartbeats 1000000 in
/-- Multiplying an affine matrix with nonzero 3x3 determinant by its
affine inverse on the right gives the identity (helper shared by the
inverse lemmas). -/
theorem mul_inverseAffine_eq_id {α : Type} [Field α] (m : CMatrix4x4 α)
    (h03 : m.e03 = 0) (h13 : m.e13 = 0) (h23 : m.e23 = 0) (h33 : m.e33 = 1)
    (hdet : det3 m ≠ 0) :
    mul m (InverseAffine m) = MatrixIdentity := by
  obtain ⟨e00, e01, e02, e03, e10, e11, e12, e13,
          e20, e21, e22, e23, e30, e31, e32, e33⟩ := m
  simp only at h03 h13 h23 h33
  subst h03 h13 h23 h33
  simp only [det3] at hdet
  ext <;> simp only [mul, InverseAffine, MatrixIdentity] <;> field_simp <;>
    ring

/-- Matrix multiplication as embedded is associative (helper). -/
theorem mul_assoc_helper {α : Type} [Field α] (a b c : CMatrix4x4 α) :
    mul (mul a b) c = mul a (mul b c) := by
  ext <;> (simp only [mul]; ring)

/-- Left multiplication by the identity is the identity map (helper). -/
theorem mul_id_left_helper {α : Type} [Field α] (m : CMatrix4x4 α) :
    mul MatrixIdentity m = m := by
  cases m
  ext <;> simp [mul, MatrixIdentity]

/-- Right multiplication by the identity is the identity map (helper). -/
theorem mul_id_right_helper {α : Type} [Field α] (m : CMatrix4x4 α) :
    mul m MatrixIdentity = m := by
  cases m
  ext <;> simp [mul, MatrixIdentity]

set_option maxHeartbeats 1000000 in
/-- Determinant of the 3x3 block of the affine inverse is the reciprocal
of the original determinant (helper). -/
theorem det3_inverseAffine {α : Type} [Field α] (m : CMatrix4x4 α)
    (hdet : det3 m ≠ 0) :
    det3 (InverseAffine m) = 1 / det3 m := by
  obtain ⟨e00, e01, e02, e03, e10, e11, e12, e13,
          e20, e21, e22, e23, e30, e31, e32, e33⟩ := m
  simp only [det3] at hdet ⊢
  simp only [InverseAffine]
  field_simp
  ring

/-- C3: `operator*=` agrees with the binary product in both branches: the
distinct-object in-place update sequence equals `operator*`, and the
aliased branch `compose(m, m)` equals `multiply(m, m)`. -/
theorem mulAssign_eq_binary_product {α : Type} [Field α] :
    (∀ m1 m2 : CMatrix4x4 α, mulAssign false m1 m2 = mul m1 m2) ∧
    (∀ m : CMatrix4x4 α, mulAssign true m m = mul m m) :=
  ⟨fun _ _ => rfl, fun _ => rfl⟩

/-- C5: for every input, `InverseAffine` returns a matrix whose last
column `(e03, e13, e23, e33)` is exactly `(0, 0, 0, 1)`. -/
theorem inverseAffine_last_column {α : Type} [Field α] (m : CMatrix4x4 α) :
    (InverseAffine m).e03 = 0 ∧ (InverseAffine m).e13 = 0 ∧
    (InverseAffine m).e23 = 0 ∧ (InverseAffine m).e33 = 1 :=
  ⟨rfl, rfl, rfl, rfl⟩

/-- C6: `InverseAffine` signals no error on a singular upper-left 3x3
block: it is a total function and still returns a matrix value when the
determinant is exactly zero.  In this exact-arithmetic embedding the junk
value `1 / 0 = 0` plays the role of the IEEE non-finite results, so the
returned matrix is fully determined. -/
theorem inverseAffine_total_on_singular {α : Type} [Field α]
    (m : CMatrix4x4 α) (h : det3 m = 0) :
    InverseAffine m = ⟨0, 0, 0, 0, 0, 0, 0, 0, 0, 0, 0, 0, 0, 0, 0, 1⟩ := by
  obtain ⟨e00, e01, e02, e03, e10, e11, e12, e13,
          e20, e21, e22, e23, e30, e31, e32, e33⟩ := m
  simp only [det3] at h
  simp only [InverseAffine, h, one_div]
  ext <;> simp

/-- Witness for C6 at the all-zero matrix over `ℚ`. -/
theorem inverseAffine_total_on_singular_witness :
    det3 (⟨0, 0, 0, 0, 0, 0, 0, 0, 0, 0, 0, 0, 0, 0, 0, 0⟩ : CMatrix4x4 ℚ) = 0 ∧
    InverseAffine (⟨0, 0, 0, 0, 0, 0, 0, 0, 0, 0, 0, 0, 0, 0, 0, 0⟩ : CMatrix4x4 ℚ) =
      ⟨0, 0, 0, 0, 0, 0, 0, 0, 0, 0, 0, 0, 0, 0, 0, 1⟩ :=
  ⟨by norm_num [det3],
   inverseAffine_total_on_singular _ (by norm_num [det3])⟩

/-- C7: after `SetRow(m, r, v)`, `GetRow` at row `r` returns exactly `v`,
and every element outside the first three positions of row `r` (including
the fourth element of row `r`) is unchanged. -/
theorem setRow_getRow_frame {α : Type} (m : CMatrix4x4 α) (r : Fin 4)
    (v : CVector3 α) :
    GetRow (SetRow m r v) r = v ∧
    ∀ r' c' : Fin 4, r' ≠ r ∨ c' = 3 →
      entry (SetRow m r v) r' c' = entry m r' c' := by
  refine ⟨?_, ?_⟩
  · fin_cases r <;> rfl
  · intro r' c' h
    fin_cases r <;> fin_cases r' <;> fin_cases c' <;>
      first
        | rfl
        | exact absurd h (by decide)

/-- Witness for C7 at row 3 of a concrete rational matrix. -/
theorem setRow_getRow_frame_witness :
    GetRow (SetRow (⟨1, 2, 3, 4, 5, 6, 7, 8, 9, 10, 11, 12, 13, 14, 15, 16⟩ :
      CMatrix4x4 ℚ) 3 ⟨20, 21, 22⟩) 3 = ⟨20, 21, 22⟩ ∧
    entry (SetRow (⟨1, 2, 3, 4, 5, 6, 7, 8, 9, 10, 11, 12, 13, 14, 15, 16⟩ :
      CMatrix4x4 ℚ) 3 ⟨20, 21, 22⟩) 3 3 =
      entry (⟨1, 2, 3, 4, 5, 6, 7, 8, 9, 10, 11, 12, 13, 14, 15, 16⟩ :
        CMatrix4x4 ℚ) 3 3 :=
  ⟨(setRow_getRow_frame _ 3 ⟨20, 21, 22⟩).1,
   (setRow_getRow_frame _ 3 ⟨20, 21, 22⟩).2 3 3 (Or.inr rfl)⟩

/-- C9: `MatrixRotationX` has rows `(1,0,0,0)`, `(0,cos,sin,0)`,
`(0,-sin,cos,0)`, `(0,0,0,1)` — in particular `sin` at `e12` and `-sin`
at `e21` — and at angle `0` it equals the identity whenever the supplied
trigonometric functions satisfy `sin 0 = 0` and `cos 0 = 1`. -/
theorem rotationX_layout_and_zero {α : Type} [Field α] (sin cos : α → α)
    (x : α) :
    MatrixRotationX sin cos x =
      ⟨1, 0, 0, 0,
       0, cos x, sin x, 0,
       0, -sin x, cos x, 0,
       0, 0, 0, 1⟩ ∧
    (sin 0 = 0 → cos 0 = 1 → MatrixRotationX sin cos 0 = MatrixIdentity) := by
  refine ⟨rfl, fun hs hc => ?_⟩
  simp [MatrixRotationX, MatrixIdentity, hs, hc]

/-- Witness for C9 with the real sine and cosine at angle `0`. -/
theorem rotationX_layout_and_zero_witness :
    MatrixRotationX Real.sin Real.cos 0 = MatrixIdentity :=
  (rotationX_layout_and_zero Real.sin Real.cos 0).2 Real.sin_zero Real.cos_zero

/-- C10: `InverseAffine` never reads the last column of its input: two
inputs agreeing on the twelve remaining elements produce identical
outputs. -/
theorem inverseAffine_ignores_last_column {α : Type} [Field α]
    (m m' : CMatrix4x4 α)
    (h00 : m.e00 = m'.e00) (h01 : m.e01 = m'.e01) (h02 : m.e02 = m'.e02)
    (h10 : m.e10 = m'.e10) (h11 : m.e11 = m'.e11) (h12 : m.e12 = m'.e12)
    (h20 : m.e20 = m'.e20) (h21 : m.e21 = m'.e21) (h22 : m.e22 = m'.e22)
    (h30 : m.e30 = m'.e30) (h31 : m.e31 = m'.e31) (h32 : m.e32 = m'.e32) :
    InverseAffine m = InverseAffine m' := by
  obtain ⟨a00, a01, a02, a03, a10, a11, a12, a13,
          a20, a21, a22, a23, a30, a31, a32, a33⟩ := m
  obtain ⟨b00, b01, b02, b03, b10, b11, b12, b13,
          b20, b21, b22, b23, b30, b31, b32, b33⟩ := m'
  simp only at h00 h01 h02 h10 h11 h12 h20 h21 h22 h30 h31 h32
  subst h00 h01 h02 h10 h11 h12 h20 h21 h22 h30 h31 h32
  rfl

/-- Witness for C10: two rational matrices differing only in the last
column have the same affine inverse. -/
theorem inverseAffine_ignores_last_column_witness :
    InverseAffine (⟨2, 0, 0, 9, 0, 3, 0, 8, 0, 0, 4, 7, 5, 6, 1, 6⟩ :
      CMatrix4x4 ℚ) =
    InverseAffine (⟨2, 0, 0, 0, 0, 3, 0, 0, 0, 0, 4, 0, 5, 6, 1, 1⟩ :
      CMatrix4x4 ℚ) :=
  inverseAffine_ignores_last_column _ _
    rfl rfl rfl rfl rfl rfl rfl rfl rfl rfl rfl rfl

/-- C1: for an affine matrix (last column `(0,0,0,1)`) with nonzero 3x3
determinant, `multiply(M, InverseAffine(M))` is exactly the identity. -/
theorem mul_inverseAffine_is_identity {α : Type} [Field α]
    (m : CMatrix4x4 α)
    (h03 : m.e03 = 0) (h13 : m.e13 = 0) (h23 : m.e23 = 0) (h33 : m.e33 = 1)
    (hdet : det3 m ≠ 0) :
    mul m (InverseAffine m) = MatrixIdentity :=
  mul_inverseAffine_eq_id m h03 h13 h23 h33 hdet

/-- Witness for C1 at a concrete rational affine matrix (scaling by
`(2,3,4)` composed with a translation). -/
theorem mul_inverseAffine_is_identity_witness :
    det3 (⟨2, 0, 0, 0, 0, 3, 0, 0, 0, 0, 4, 0, 5, 6, 7, 1⟩ :
      CMatrix4x4 ℚ) ≠ 0 ∧
    mul (⟨2, 0, 0, 0, 0, 3, 0, 0, 0, 0, 4, 0, 5, 6, 7, 1⟩ : CMatrix4x4 ℚ)
      (InverseAffine ⟨2, 0, 0, 0, 0, 3, 0, 0, 0, 0, 4, 0, 5, 6, 7, 1⟩) =
      MatrixIdentity :=
  ⟨by norm_num [det3],
   mul_inverseAffine_is_identity _ rfl rfl rfl rfl (by norm_num [det3])⟩

/-- C4: for an affine matrix (last column `(0,0,0,1)`) with nonzero 3x3
determinant, `InverseAffine(InverseAffine(M))` is exactly `M`. -/
theorem inverseAffine_involution {α : Type} [Field α] (m : CMatrix4x4 α)
    (h03 : m.e03 = 0) (h13 : m.e13 = 0) (h23 : m.e23 = 0) (h33 : m.e33 = 1)
    (hdet : det3 m ≠ 0) :
    InverseAffine (InverseAffine m) = m := by
  have hdet' : det3 (InverseAffine m) ≠ 0 := by
    rw [det3_inverseAffine m hdet]
    exact one_div_ne_zero hdet
  have h1 : mul (InverseAffine m) (InverseAffine (InverseAffine m)) =
      MatrixIdentity :=
    mul_inverseAffine_eq_id (InverseAffine m) rfl rfl rfl rfl hdet'
  calc InverseAffine (InverseAffine m)
      = mul MatrixIdentity (InverseAffine (InverseAffine m)) :=
        (mul_id_left_helper _).symm
    _ = mul (mul m (InverseAffine m)) (InverseAffine (InverseAffine m)) := by
        rw [mul_inverseAffine_eq_id m h03 h13 h23 h33 hdet]
    _ = mul m (mul (InverseAffine m) (InverseAffine (InverseAffine m))) :=
        mul_assoc_helper m (InverseAffine m) (InverseAffine (InverseAffine m))
    _ = mul m MatrixIdentity := by rw [h1]
    _ = m := mul_id_right_helper m

/-- Witness for C4 at a concrete rational affine matrix. -/
theorem inverseAffine_involution_witness :
    det3 (⟨2, 0, 0, 0, 0, 3, 0, 0, 0, 0, 4, 0, 5, 6, 7, 1⟩ :
      CMatrix4x4 ℚ) ≠ 0 ∧
    InverseAffine (InverseAffine
      (⟨2, 0, 0, 0, 0, 3, 0, 0, 0, 0, 4, 0, 5, 6, 7, 1⟩ : CMatrix4x4 ℚ)) =
      ⟨2, 0, 0, 0, 0, 3, 0, 0, 0, 0, 4, 0, 5, 6, 7, 1⟩ :=
  ⟨by norm_num [det3],
   inverseAffine_involution _ rfl rfl rfl rfl (by norm_num [det3])⟩

end IndexBuffer
